import Mathlib

/-!
Shallow embedding of the Texas Hold'em computational core of this repository:
the card model (`backend/internal/poker/card.go`), the hand evaluator and
comparator (`backend/internal/poker/hand_eval.go`), and the Monte Carlo
equity simulator (the `poker` package part of `backend/cmd/server/main.go`).

Go slices become Lean lists; Go `int` counters that are only ever
incremented become `Nat`; the `int` parameters that may be non-positive
(`trials`, `numOpponents`) become `Int`; Go `panic` becomes `Option`
(`none` = panic).  Randomness is passed in explicitly: a shuffled deck is
an arbitrary list supplied by the caller, and the worker pool receives an
oracle `shuffles : Nat → Nat → List Card` giving the shuffled deck used by
worker `w` on its `i`-th trial.
-/

namespace Poker

/-- Suits, from `card.go` (`Hearts | Diamonds | Clubs | Spades`). -/
inductive Suit where
  | Hearts
  | Diamonds
  | Clubs
  | Spades
deriving DecidableEq, Repr

open Suit

/-- Ranks are small integers `2..14`, as in `card.go` (`Two Rank = iota + 2`). -/
abbrev Rank := Nat

def Two : Rank := 2
def Three : Rank := 3
def Four : Rank := 4
def Five : Rank := 5
def Six : Rank := 6
def Seven : Rank := 7
def Eight : Rank := 8
def Nine : Rank := 9
def Ten : Rank := 10
def Jack : Rank := 11
def Queen : Rank := 12
def King : Rank := 13
def Ace : Rank := 14

/-- A playing card: suit, rank and its two-character code (`card.go`). -/
structure Card where
  suit : Suit
  rank : Rank
  str : String
deriving DecidableEq, Repr

/-- `formatCard` from `card.go`: the canonical two-character code. -/
def formatCard (s : Suit) (r : Rank) : String :=
  let suitChar : String :=
    match s with
    | Hearts => "H"
    | Diamonds => "D"
    | Clubs => "C"
    | Spades => "S"
  let rankChar : String :=
    if r = Two then "2" else if r = Three then "3" else if r = Four then "4"
    else if r = Five then "5" else if r = Six then "6" else if r = Seven then "7"
    else if r = Eight then "8" else if r = Nine then "9" else if r = Ten then "T"
    else if r = Jack then "J" else if r = Queen then "Q" else if r = King then "K"
    else if r = Ace then "A" else ""
  suitChar ++ rankChar

def allSuits : List Suit := [Hearts, Diamonds, Clubs, Spades]

def allRanks : List Rank :=
  [Two, Three, Four, Five, Six, Seven, Eight, Nine, Ten, Jack, Queen, King, Ace]

/-- `FullDeck` from `card.go`: all 52 cards, suit-major, rank-minor. -/
def FullDeck : List Card :=
  allSuits.flatMap (fun s => allRanks.map (fun r => ⟨s, r, formatCard s r⟩))

/-- Hand category constants from `hand_eval.go` (`HighCard = iota`, ...). -/
def HighCard : Nat := 0
def OnePair : Nat := 1
def TwoPair : Nat := 2
def ThreeOfAKind : Nat := 3
def Straight : Nat := 4
def Flush : Nat := 5
def FullHouse : Nat := 6
def FourOfAKind : Nat := 7
def StraightFlush : Nat := 8

/-- `HandValue` from `hand_eval.go`: category plus ordered kickers. -/
structure HandValue where
  category : Nat
  kickers : List Rank
deriving DecidableEq, Repr

/-- The rank-descending sort of `evaluate5` (`sort.Slice` with
`cards[i].Rank > cards[j].Rank`): card `a` is placed before `b`
when `b.rank ≤ a.rank`. -/
def rankDescRel (a b : Card) : Prop := b.rank ≤ a.rank

instance : DecidableRel rankDescRel := fun a b => inferInstanceAs (Decidable (b.rank ≤ a.rank))

instance : IsTotal Card rankDescRel := ⟨fun a b => le_total b.rank a.rank⟩

instance : IsTrans Card rankDescRel := ⟨fun _ _ _ h h' => le_trans h' h⟩

def sortCards (cards : List Card) : List Card := List.insertionSort rankDescRel cards

/-- `detectFlush` from `hand_eval.go`: some suit with at least 5 cards.
The Go code walks a `map[Suit]int` in unspecified order; at most one suit
can reach 5 in the (≤ 7 card) inputs this program ever passes, so checking
the four suits in a fixed order is equivalent there.  The fallback suit is
`Hearts`, as in the Go `return false, Hearts`. -/
def countSuit (cards : List Card) (s : Suit) : Nat :=
  cards.countP (fun c => c.suit = s)

def detectFlush (cards : List Card) : Bool × Suit :=
  if countSuit cards Hearts ≥ 5 then (true, Hearts)
  else if countSuit cards Diamonds ≥ 5 then (true, Diamonds)
  else if countSuit cards Clubs ≥ 5 then (true, Clubs)
  else if countSuit cards Spades ≥ 5 then (true, Spades)
  else (false, Hearts)

/-- `filterBySuit` from `hand_eval.go`. -/
def filterBySuit (cards : List Card) (s : Suit) : List Card :=
  cards.filter (fun c => c.suit = s)

/-- Membership in the `seen` rank set of `detectStraight`. -/
def hasRank (cards : List Card) (r : Rank) : Bool :=
  cards.any (fun c => c.rank = r)

/-- One window of the `detectStraight` scan: ranks
`start, start-1, ..., start-4` all present. -/
def straightAt (cards : List Card) (start : Rank) : Bool :=
  (List.range 5).all (fun off => hasRank cards (start - off))

/-- `detectStraight` from `hand_eval.go`: the wheel A-2-3-4-5 is checked
first (top rank `Five`), then windows are scanned from Ace-high down to
Five-high; the Go `for start := Ace; start >= Five; start--` loop is the
`find?` over the explicit descending list of window tops. -/
def detectStraight (cards : List Card) : Bool × Rank :=
  if hasRank cards Ace && hasRank cards Two && hasRank cards Three &&
      hasRank cards Four && hasRank cards Five then
    (true, Five)
  else
    match [Ace, King, Queen, Jack, Ten, Nine, Eight, Seven, Six, Five].find?
        (fun start => straightAt cards start) with
    | some start => (true, start)
    | none => (false, Two)

/-- `ranksOnly` from `hand_eval.go`. -/
def ranksOnly (cards : List Card) : List Rank :=
  cards.map (fun c => c.rank)

/-- `highestDifferentRank` from `hand_eval.go`: the first card (in the
given order) whose rank is not excluded; the Go fallback is `Two`. -/
def highestDifferentRank (cards : List Card) (exclude : List Rank) : Rank :=
  match cards.find? (fun c => ¬ c.rank ∈ exclude) with
  | some c => c.rank
  | none => Two

/-- `topKickersExcluding` from `hand_eval.go` with `n = 2`: the first two
non-excluded ranks in card order.  The Go code indexes `res[0], res[1]`
and would panic with fewer; that is unreachable in its only call site
(a three-of-a-kind among 5 cards leaves 2 other cards), so the model
returns `(Two, Two)` in the dead branch. -/
def topKickersExcluding (cards : List Card) (exclude : List Rank) : Rank × Rank :=
  match (ranksOnly (cards.filter (fun c => ¬ c.rank ∈ exclude))).take 2 with
  | k1 :: k2 :: _ => (k1, k2)
  | _ => (Two, Two)

/-- `topThreeKickersExcluding` from `hand_eval.go`; as above, the
insufficient-cards branch is unreachable at its only call site (a pair
among 5 cards leaves 3 other cards). -/
def topThreeKickersExcluding (cards : List Card) (exclude : List Rank) :
    Rank × Rank × Rank :=
  match (ranksOnly (cards.filter (fun c => ¬ c.rank ∈ exclude))).take 3 with
  | k1 :: k2 :: k3 :: _ => (k1, k2, k3)
  | _ => (Two, Two, Two)

/-- The `(rank, count)` pairs of `evaluate5`, one per distinct rank.
The Go code materialises a `map[Rank]int` and walks it in unspecified
order; the subsequent sort below makes the order canonical, so the model
enumerates distinct ranks in first-occurrence order. -/
def rankCountPairs (cards : List Card) : List (Rank × Nat) :=
  (ranksOnly cards).dedup.map (fun r => (r, (ranksOnly cards).count r))

/-- The pair ordering of `evaluate5` (`sort.Slice` on `ps`): count
descending, then rank descending. -/
def pairRel (p q : Rank × Nat) : Prop := q.2 < p.2 ∨ (p.2 = q.2 ∧ q.1 ≤ p.1)

instance : DecidableRel pairRel := fun p q =>
  inferInstanceAs (Decidable (q.2 < p.2 ∨ (p.2 = q.2 ∧ q.1 ≤ p.1)))

instance : IsTotal (Rank × Nat) pairRel := by
  constructor
  intro p q
  rcases Nat.lt_trichotomy p.2 q.2 with h | h | h
  · exact Or.inr (Or.inl h)
  · rcases le_total p.1 q.1 with h' | h'
    · exact Or.inr (Or.inr ⟨h.symm, h'⟩)
    · exact Or.inl (Or.inr ⟨h, h'⟩)
  · exact Or.inl (Or.inl h)

instance : IsTrans (Rank × Nat) pairRel := by
  constructor
  intro p q r hpq hqr
  rcases hpq with h | ⟨h1, h2⟩
  · rcases hqr with h' | ⟨h1', _⟩
    · exact Or.inl (lt_trans h' h)
    · exact Or.inl (h1' ▸ h)
  · rcases hqr with h' | ⟨h1', h2'⟩
    · exact Or.inl (h1 ▸ h')
    · exact Or.inr ⟨h1.trans h1', h2'.trans h2⟩

instance : IsAntisymm (Rank × Nat) pairRel := by
  constructor
  intro p q hpq hqp
  rcases hpq with h | ⟨h1, h2⟩
  · rcases hqp with h' | ⟨h1', _⟩
    · exact absurd h' (Nat.lt_asymm h)
    · exact absurd h (h1' ▸ lt_irrefl _)
  · rcases hqp with h' | ⟨_, h2'⟩
    · exact absurd h' (h1 ▸ lt_irrefl _)
    · exact Prod.ext (le_antisymm h2' h2) h1

def sortPairs (ps : List (Rank × Nat)) : List (Rank × Nat) :=
  List.insertionSort pairRel ps

/-- `evaluate5` from `hand_eval.go`: classify exactly 5 cards.
The Go function first sorts its slice in place by rank descending, then
branches on flush / straight / rank-count structure. -/
def evaluate5 (cards0 : List Card) : HandValue :=
  let cards := sortCards cards0
  let fl := detectFlush cards
  let st := detectStraight cards
  if fl.1 then
    let flushCards := filterBySuit cards fl.2
    let stFl := detectStraight flushCards
    if stFl.1 then
      ⟨StraightFlush, [stFl.2]⟩
    else
      ⟨Flush, ranksOnly flushCards⟩
  else if st.1 then
    ⟨Straight, [st.2]⟩
  else
    match sortPairs (rankCountPairs cards) with
    | [] => ⟨HighCard, ranksOnly cards⟩
    | p0 :: rest =>
      if p0.2 = 4 then
        ⟨FourOfAKind, [p0.1, highestDifferentRank cards [p0.1]]⟩
      else if p0.2 = 3 ∧ (rest.headD (Two, 0)).2 ≥ 2 ∧ rest ≠ [] then
        ⟨FullHouse, [p0.1, (rest.headD (Two, 0)).1]⟩
      else if p0.2 = 3 then
        let ks := topKickersExcluding cards [p0.1]
        ⟨ThreeOfAKind, [p0.1, ks.1, ks.2]⟩
      else if p0.2 = 2 ∧ (rest.headD (Two, 0)).2 = 2 ∧ rest ≠ [] then
        let highPair0 := p0.1
        let lowPair0 := (rest.headD (Two, 0)).1
        let highPair := if lowPair0 > highPair0 then lowPair0 else highPair0
        let lowPair := if lowPair0 > highPair0 then highPair0 else lowPair0
        ⟨TwoPair, [highPair, lowPair, highestDifferentRank cards [highPair, lowPair]]⟩
      else if p0.2 = 2 then
        let ks := topThreeKickersExcluding cards [p0.1]
        ⟨OnePair, [p0.1, ks.1, ks.2.1, ks.2.2]⟩
      else
        ⟨HighCard, ranksOnly cards⟩

/-- The kicker loop of `CompareHandValues`: compare element-wise in order;
if one sequence is a strict prefix of the other, the longer is greater. -/
def compareKickers : List Rank → List Rank → Int
  | [], [] => 0
  | _ :: _, [] => 1
  | [], _ :: _ => -1
  | a :: as, b :: bs =>
    if a > b then 1 else if b > a then -1 else compareKickers as bs

/-- `CompareHandValues` from `hand_eval.go`: 1 if `a > b`, -1 if `a < b`,
0 if equal.  Category first, then kickers lexicographically. -/
def CompareHandValues (a b : HandValue) : Int :=
  if a.category ≠ b.category then
    (if a.category > b.category then 1 else -1)
  else
    compareKickers a.kickers b.kickers

/-- All `k`-element sublists (in order) of a list, in the lexicographic
order of index combinations — the same enumeration as the Go `next()`
combination generator in `EvaluateBestHand`. -/
def combinations {α : Type} : List α → Nat → List (List α)
  | _, 0 => [[]]
  | [], _ + 1 => []
  | x :: xs, k + 1 => ((combinations xs k).map (fun c => x :: c)) ++ combinations xs (k + 1)

/-- The accumulation loop of `EvaluateBestHand`: keep the current best,
replacing it only when a later combination compares strictly greater. -/
def bestHandValue (first : HandValue) (rest : List HandValue) : HandValue :=
  rest.foldl (fun best hv => if CompareHandValues hv best > 0 then hv else best) first

/-- `EvaluateBestHand` from `hand_eval.go`: requires exactly 7 cards
(Go panics otherwise, modelled as `none`), evaluates every 5-card
combination and keeps the maximum under `CompareHandValues`.  The Go
initial `best` value is overwritten by the first combination before any
comparison, so the fold starts from the first combination's value. -/
def EvaluateBestHand (cards : List Card) : Option HandValue :=
  if cards.length = 7 then
    match (combinations cards 5).map evaluate5 with
    | [] => some ⟨HighCard, [Two]⟩
    | v :: vs => some (bestHandValue v vs)
  else
    none

/-! ### The Monte Carlo equity simulator (`backend/cmd/server/main.go`,
`poker` package part)

Randomness is made explicit: `simulateOnce` receives the already-shuffled
copy `tmp` of the remaining deck (in Go, `rng.Shuffle` over a copy of
`deck`), and `SimulateEquity` receives an oracle `shuffles w i` giving the
shuffled deck used by worker `w` on its `i`-th trial.  In the real program
every such deck is a permutation of the filtered deck; theorems take what
they need about the oracle as hypotheses. -/

/-- `SimulationResult` from `main.go`: outcome counters. -/
structure SimulationResult where
  HeroWins : Nat
  VillainWins : Nat
  Ties : Nat
  TrialsRun : Nat
deriving DecidableEq, Repr

/-- The opponent loop of `simulateOnce`, threading the Go loop state
(`villainBetter`, `equalCount`).  The Go loop `break`s — without any
error — as soon as fewer than 2 cards remain in the shuffled deck. -/
def oppLoop (heroBest : HandValue) (simCommunity : List Card) :
    Nat → List Card → Bool → Nat → Option (Bool × Nat)
  | 0, _, vb, eqc => some (vb, eqc)
  | n + 1, c1 :: c2 :: rest, vb, eqc =>
    match EvaluateBestHand (c1 :: c2 :: simCommunity) with
    | none => none
    | some oppBest =>
      let cmp := CompareHandValues oppBest heroBest
      if cmp > 0 then oppLoop heroBest simCommunity n rest true eqc
      else if cmp = 0 then oppLoop heroBest simCommunity n rest vb (eqc + 1)
      else oppLoop heroBest simCommunity n rest vb eqc
  | _ + 1, _, vb, eqc => some (vb, eqc)

/-- `simulateOnce` from `main.go`: one trial over an already-shuffled
remaining deck `tmp`.  Go panics (modelled `none`) if the board draw
indexes past the end of `tmp` or a 7-card hand has the wrong size. -/
def simulateOnce (tmp heroHole community : List Card) (numOpponents : Nat) :
    Option (Bool × Bool × Bool) :=
  let toDraw := 5 - community.length
  if tmp.length < toDraw then none
  else
    let simCommunity := community ++ tmp.take toDraw
    match EvaluateBestHand (heroHole ++ simCommunity) with
    | none => none
    | some heroBest =>
      match oppLoop heroBest simCommunity numOpponents (tmp.drop toDraw) false 0 with
      | none => none
      | some (vb, eqc) =>
        if vb then some (false, true, false)
        else if eqc > 0 then some (false, false, true)
        else some (true, false, false)

/-- The per-trial tally of the worker goroutine in `SimulateEquity`:
`if heroWin {...} else if villainWin {...} else if tie {...}` and
`TrialsRun++`. -/
def tallyTrial (acc : SimulationResult) (outcome : Bool × Bool × Bool) :
    SimulationResult :=
  let acc1 :=
    if outcome.1 then { acc with HeroWins := acc.HeroWins + 1 }
    else if outcome.2.1 then { acc with VillainWins := acc.VillainWins + 1 }
    else if outcome.2.2 then { acc with Ties := acc.Ties + 1 }
    else acc
  { acc1 with TrialsRun := acc1.TrialsRun + 1 }

/-- The trial loop of one worker goroutine: `i` is the trial index into
the shuffle oracle, the second argument the number of trials left. -/
def workerLoop (sh : Nat → List Card) (heroHole community : List Card)
    (numOpponents : Nat) : Nat → Nat → SimulationResult → Option SimulationResult
  | _, 0, acc => some acc
  | i, count + 1, acc =>
    match simulateOnce (sh i) heroHole community numOpponents with
    | none => none
    | some outcome =>
      workerLoop sh heroHole community numOpponents (i + 1) count (tallyTrial acc outcome)

def workerRun (sh : Nat → List Card) (heroHole community : List Card)
    (numOpponents count : Nat) : Option SimulationResult :=
  workerLoop sh heroHole community numOpponents 0 count ⟨0, 0, 0, 0⟩

/-- The final aggregation in `SimulateEquity`: field-wise sums. -/
def addResults (a b : SimulationResult) : SimulationResult :=
  ⟨a.HeroWins + b.HeroWins, a.VillainWins + b.VillainWins,
    a.Ties + b.Ties, a.TrialsRun + b.TrialsRun⟩

/-- The deck built by `SimulateEquity`: the full deck minus the cards
whose two-character codes appear in hero's hole or the community
(`used` is keyed by `c.Str` in Go). -/
def filteredDeck (heroHole community : List Card) : List Card :=
  let used := (heroHole ++ community).map (fun c => c.str)
  FullDeck.filter (fun c => ¬ used.contains c.str)

/-- The worker fan-out/fan-in of `SimulateEquity`: worker `w` runs
`tw w` trials, and the partial results are summed.  Go receives the
partials in channel-arrival order, but the sum is commutative and
associative, so folding in worker order yields the same total. -/
def runWorkers (shuffles : Nat → Nat → List Card)
    (heroHole community : List Card) (numOpponents : Nat)
    (tw : Nat → Nat) (workers : Nat) : Option SimulationResult :=
  (List.range workers).foldl
    (fun acc w =>
      match acc, workerRun (shuffles w) heroHole community numOpponents (tw w) with
      | some a, some b => some (addResults a b)
      | _, _ => none)
    (some ⟨0, 0, 0, 0⟩)

/-- `SimulateEquity` from `main.go`.  Validation panics become `none`;
`trials ≤ 0` returns the all-zero result.  Otherwise `min trials 4`
workers split the trials: `trials / workers` each, plus the remainder
for worker 0.  Worker `w` shuffles `filteredDeck heroHole community`
anew for each trial; the model reads trial `i`'s shuffled deck from the
oracle as `shuffles w i`. -/
def SimulateEquity (shuffles : Nat → Nat → List Card)
    (heroHole community : List Card) (numOpponents trials : Int) :
    Option SimulationResult :=
  if heroHole.length ≠ 2 then none
  else if community.length ≠ 0 ∧ community.length ≠ 3 ∧
      community.length ≠ 4 ∧ community.length ≠ 5 then none
  else if numOpponents < 1 then none
  else if trials ≤ 0 then some ⟨0, 0, 0, 0⟩
  else
    let t := trials.toNat
    let workers := if t < 4 then t else 4
    let tpw := t / workers
    let rem := t % workers
    runWorkers shuffles heroHole community numOpponents.toNat
      (fun w => tpw + if w = 0 then rem else 0) workers

/-- Card shorthand used by the test fixtures: the canonical card for a
suit/rank pair, with its two-character code. -/
def card (s : Suit) (r : Rank) : Card := ⟨s, r, formatCard s r⟩

def HA : Card := card Hearts Ace
def HK : Card := card Hearts King
def HQ : Card := card Hearts Queen
def HJ : Card := card Hearts Jack
def HT : Card := card Hearts Ten
def H2 : Card := card Hearts Two
def H5 : Card := card Hearts Five
def H6 : Card := card Hearts Six
def H7 : Card := card Hearts Seven
def D2 : Card := card Diamonds Two
def D6 : Card := card Diamonds Six
def D9 : Card := card Diamonds Nine
def C2 : Card := card Clubs Two
def C3 : Card := card Clubs Three
def C7 : Card := card Clubs Seven
def CK : Card := card Clubs King
def S2 : Card := card Spades Two
def S3 : Card := card Spades Three
def S4 : Card := card Spades Four

/- ### Basic facts about the comparator -/

theorem compareKickers_self (a : List Nat) : compareKickers a a = 0 := by
  induction a with
  | nil => rfl
  | cons x xs ih => simp [compareKickers, ih]

theorem compareKickers_neg (a b : List Nat) :
    compareKickers a b = -compareKickers b a := by
  induction a generalizing b with
  | nil => cases b <;> rfl
  | cons x xs ih =>
    cases b with
    | nil => rfl
    | cons y ys =>
      by_cases hxy : x > y
      · have hyx : ¬ y > x := Nat.lt_asymm hxy
        simp [compareKickers, hxy, hyx]
      · by_cases hyx : y > x
        · simp [compareKickers, hxy, hyx]
        · simp [compareKickers, hxy, hyx, ih ys]

theorem compareKickers_eq_zero_iff (a b : List Nat) :
    compareKickers a b = 0 ↔ a = b := by
  induction a generalizing b with
  | nil => cases b <;> simp [compareKickers]
  | cons x xs ih =>
    cases b with
    | nil => simp [compareKickers]
    | cons y ys =>
      by_cases hxy : x > y
      · simp only [compareKickers, if_pos hxy]
        constructor
        · intro hh
          exact absurd hh (by decide)
        · intro hh
          injection hh with h1 _
          exact absurd h1 (Nat.ne_of_gt hxy)
      · by_cases hyx : y > x
        · simp only [compareKickers, if_neg hxy, if_pos hyx]
          constructor
          · intro hh
            exact absurd hh (by decide)
          · intro hh
            injection hh with h1 _
            exact absurd h1 (Nat.ne_of_lt hyx)
        · have hxy' : x = y := Nat.le_antisymm (Nat.not_lt.mp hxy) (Nat.not_lt.mp hyx)
          subst hxy'
          simp [compareKickers, ih ys]

theorem compareKickers_trans (a b c : List Nat)
    (hab : compareKickers a b ≥ 0) (hbc : compareKickers b c ≥ 0) :
    compareKickers a c ≥ 0 := by
  induction a generalizing b c with
  | nil =>
    cases b with
    | nil => exact hbc
    | cons y ys => simp [compareKickers] at hab
  | cons x xs ih =>
    cases c with
    | nil => cases b <;> simp [compareKickers]
    | cons z zs =>
      cases b with
      | nil => simp [compareKickers] at hbc
      | cons y ys =>
        simp only [compareKickers] at hab hbc ⊢
        rcases Nat.lt_trichotomy x y with hxy | hxy | hxy
        · rw [if_neg (Nat.lt_asymm hxy), if_pos hxy] at hab
          exact absurd hab (by decide)
        · subst hxy
          rw [if_neg (lt_irrefl x), if_neg (lt_irrefl x)] at hab
          rcases Nat.lt_trichotomy x z with hyz | hyz | hyz
          · rw [if_neg (Nat.lt_asymm hyz), if_pos hyz] at hbc
            exact absurd hbc (by decide)
          · subst hyz
            rw [if_neg (lt_irrefl x), if_neg (lt_irrefl x)] at hbc
            rw [if_neg (lt_irrefl x), if_neg (lt_irrefl x)]
            exact ih ys zs hab hbc
          · rw [if_pos hyz]
            decide
        · rcases Nat.lt_trichotomy y z with hyz | hyz | hyz
          · rw [if_neg (Nat.lt_asymm hyz), if_pos hyz] at hbc
            exact absurd hbc (by decide)
          · subst hyz
            rw [if_pos hxy]
            decide
          · rw [if_pos (lt_trans hyz hxy)]
            decide

theorem cmp_ge_iff (a b : HandValue) :
    CompareHandValues a b ≥ 0 ↔
      b.category < a.category ∨
        (a.category = b.category ∧ compareKickers a.kickers b.kickers ≥ 0) := by
  unfold CompareHandValues
  rcases Nat.lt_trichotomy a.category b.category with h | h | h
  · rw [if_pos (Nat.ne_of_lt h), if_neg (Nat.lt_asymm h)]
    constructor
    · intro hc
      exact absurd hc (by decide)
    · rintro (h' | ⟨h', _⟩)
      · exact absurd h' (Nat.lt_asymm h)
      · exact absurd h' (Nat.ne_of_lt h)
  · rw [if_neg (fun hh => hh h)]
    constructor
    · intro hc
      exact Or.inr ⟨h, hc⟩
    · rintro (h' | ⟨_, h'⟩)
      · exact absurd h' (h ▸ Nat.lt_irrefl _)
      · exact h'
  · rw [if_pos (Nat.ne_of_gt h), if_pos h]
    constructor
    · intro _
      exact Or.inl h
    · intro _
      decide

theorem CompareHandValues_self (a : HandValue) : CompareHandValues a a = 0 := by
  simp [CompareHandValues, compareKickers_self]

theorem CompareHandValues_neg (a b : HandValue) :
    CompareHandValues a b = -CompareHandValues b a := by
  unfold CompareHandValues
  rcases Nat.lt_trichotomy a.category b.category with h | h | h
  · rw [if_pos (Nat.ne_of_lt h), if_neg (Nat.lt_asymm h),
      if_pos (Nat.ne_of_gt h), if_pos h]
  · rw [if_neg (fun hh => hh h), if_neg (fun hh => hh h.symm)]
    exact compareKickers_neg _ _
  · rw [if_pos (Nat.ne_of_gt h), if_pos h,
      if_pos (Nat.ne_of_lt h), if_neg (Nat.lt_asymm h)]
    decide

theorem CompareHandValues_trans (a b c : HandValue)
    (hab : CompareHandValues a b ≥ 0) (hbc : CompareHandValues b c ≥ 0) :
    CompareHandValues a c ≥ 0 := by
  rw [cmp_ge_iff] at hab hbc ⊢
  rcases hab with h1 | ⟨h1, h1k⟩
  · rcases hbc with h2 | ⟨h2, _⟩
    · exact Or.inl (lt_trans h2 h1)
    · exact Or.inl (h2 ▸ h1)
  · rcases hbc with h2 | ⟨h2, h2k⟩
    · exact Or.inl (h1 ▸ h2)
    · exact Or.inr ⟨h1.trans h2, compareKickers_trans _ _ _ h1k h2k⟩

theorem CompareHandValues_eq_zero_iff (a b : HandValue) :
    CompareHandValues a b = 0 ↔ a = b := by
  unfold CompareHandValues
  rcases Nat.lt_trichotomy a.category b.category with h | h | h
  · rw [if_pos (Nat.ne_of_lt h), if_neg (Nat.lt_asymm h)]
    constructor
    · intro hh
      exact absurd hh (by decide)
    · intro hh
      exact absurd (congrArg HandValue.category hh) (Nat.ne_of_lt h)
  · rw [if_neg (fun hh => hh h), compareKickers_eq_zero_iff]
    constructor
    · intro hk
      cases a
      cases b
      simp_all
    · intro hk
      subst hk
      rfl
  · rw [if_pos (Nat.ne_of_gt h), if_pos h]
    constructor
    · intro hh
      exact absurd hh (by decide)
    · intro hh
      exact absurd (congrArg HandValue.category hh) (Nat.ne_of_gt h)

/-- C4: `CompareHandValues` is a strict total order on `HandValue`s:
`compare a a = 0`; `compare a b = -compare b a`; and `compare` is
transitive on `≥ 0`.  Proved for all `HandValue`s, hence in particular
for all values produced by the 5-card classifier. -/
theorem compare_hand_values_strict_total_order (a b c : HandValue) :
    CompareHandValues a a = 0 ∧
      CompareHandValues a b = -CompareHandValues b a ∧
      (CompareHandValues a b ≥ 0 → CompareHandValues b c ≥ 0 →
        CompareHandValues a c ≥ 0) :=
  ⟨CompareHandValues_self a, CompareHandValues_neg a b,
    CompareHandValues_trans a b c⟩

/-- Witness for C4 at concrete hand values. -/
theorem compare_hand_values_strict_total_order_witness :
    CompareHandValues ⟨8, [14]⟩ ⟨4, [5]⟩ ≥ 0 :=
  (compare_hand_values_strict_total_order ⟨8, [14]⟩ ⟨5, [9, 7, 5, 3, 2]⟩ ⟨4, [5]⟩).2.2
    (by decide) (by decide)

/- ### C1: the four spec fixtures -/

set_option maxRecDepth 100000 in
/-- C1: the four fixture 7-card inputs evaluate to exactly the stated
hand values: a royal straight flush with kicker `[Ace]`, quad twos with
kickers `[Two, Seven]`, two pair threes-over-twos with kickers
`[Three, Two, Seven]`, and the wheel straight with kicker `[Five]`. -/
theorem evaluate_best_hand_fixtures :
    EvaluateBestHand [HA, HK, HQ, HJ, HT, S2, S3] = some ⟨StraightFlush, [Ace]⟩ ∧
      EvaluateBestHand [H2, D2, C2, S2, H5, H6, H7] = some ⟨FourOfAKind, [Two, Seven]⟩ ∧
      EvaluateBestHand [H2, D2, C3, S3, H5, D6, C7] = some ⟨TwoPair, [Three, Two, Seven]⟩ ∧
      EvaluateBestHand [HA, D2, C3, S4, H5, D9, CK] = some ⟨Straight, [Five]⟩ := by
  refine ⟨by decide, by decide, by decide, by decide⟩

/- ### The outcome of a single trial -/

/-- An opponent's hand beats hero's best hand: the comparator is
strictly positive on it. -/
def beatsHero (heroBest h : HandValue) : Bool :=
  decide (CompareHandValues h heroBest > 0)

/-- An opponent's hand ties hero's best hand: the comparator is zero. -/
def tiesHero (heroBest h : HandValue) : Bool :=
  decide (CompareHandValues h heroBest = 0)

/-- The list of opponent best-hand values a trial evaluates: successive
2-card holes off the shuffled remainder, each completed with the board;
dealing stops when fewer than 2 cards remain. -/
def oppHands (simCommunity : List Card) : Nat → List Card → Option (List HandValue)
  | 0, _ => some []
  | n + 1, c1 :: c2 :: rest =>
    match EvaluateBestHand (c1 :: c2 :: simCommunity), oppHands simCommunity n rest with
    | some h, some hs => some (h :: hs)
    | _, _ => none
  | _ + 1, _ => some []

theorem evaluateBestHand_of_length (cards : List Card) (h : cards.length = 7) :
    ∃ v, EvaluateBestHand cards = some v := by
  unfold EvaluateBestHand
  rw [if_pos h]
  cases (combinations cards 5).map evaluate5 with
  | nil => exact ⟨_, rfl⟩
  | cons v vs => exact ⟨_, rfl⟩

theorem oppHands_some (simCommunity : List Card) (hsc : simCommunity.length = 5) :
    ∀ (n : Nat) (rest : List Card), ∃ hs, oppHands simCommunity n rest = some hs ∧
      hs.length = min n (rest.length / 2) := by
  intro n
  induction n with
  | zero => intro rest; exact ⟨[], rfl, by simp⟩
  | succ n ih =>
    intro rest
    match rest with
    | [] => exact ⟨[], rfl, by simp⟩
    | [c] => exact ⟨[], rfl, by simp⟩
    | c1 :: c2 :: rest' =>
      obtain ⟨h, hh⟩ := evaluateBestHand_of_length (c1 :: c2 :: simCommunity) (by simp [hsc])
      obtain ⟨hs, hhs, hlen⟩ := ih rest'
      refine ⟨h :: hs, ?_, ?_⟩
      · simp only [oppHands, hh, hhs]
      · simp only [List.length_cons, hlen]
        omega

theorem oppLoop_spec (heroBest : HandValue) (simCommunity : List Card) :
    ∀ (n : Nat) (rest : List Card) (vb : Bool) (eqc : Nat) (hs : List HandValue),
      oppHands simCommunity n rest = some hs →
      oppLoop heroBest simCommunity n rest vb eqc =
        some (vb || hs.any (beatsHero heroBest), eqc + hs.countP (tiesHero heroBest)) := by
  intro n
  induction n with
  | zero =>
    intro rest vb eqc hs hhs
    cases hhs
    simp [oppLoop]
  | succ n ih =>
    intro rest vb eqc hs hhs
    match rest with
    | [] =>
      cases hhs
      simp [oppLoop]
    | [c] =>
      cases hhs
      simp [oppLoop]
    | c1 :: c2 :: rest' =>
      simp only [oppHands] at hhs
      match hEBH : EvaluateBestHand (c1 :: c2 :: simCommunity) with
      | none => rw [hEBH] at hhs; exact absurd hhs (by simp)
      | some h =>
        rw [hEBH] at hhs
        match hrec : oppHands simCommunity n rest' with
        | none => rw [hrec] at hhs; exact absurd hhs (by simp)
        | some hs' =>
          rw [hrec] at hhs
          simp only [Option.some.injEq] at hhs
          subst hhs
          simp only [oppLoop, hEBH]
          rcases Int.lt_trichotomy 0 (CompareHandValues h heroBest) with hcmp | hcmp | hcmp
          · rw [if_pos hcmp, ih rest' true eqc hs' hrec]
            have hb : beatsHero heroBest h = true := by
              simp [beatsHero, hcmp]
            have ht : tiesHero heroBest h = false := by
              simp only [tiesHero, decide_eq_false_iff_not]
              omega
            simp [hb, ht]
          · rw [if_neg (by omega), if_pos hcmp.symm, ih rest' vb (eqc + 1) hs' hrec]
            have hb : beatsHero heroBest h = false := by
              simp only [beatsHero, decide_eq_false_iff_not]
              omega
            have ht : tiesHero heroBest h = true := by
              simp [tiesHero, hcmp.symm]
            simp [hb, ht]
            omega
          · rw [if_neg (by omega), if_neg (by omega), ih rest' vb eqc hs' hrec]
            have hb : beatsHero heroBest h = false := by
              simp only [beatsHero, decide_eq_false_iff_not]
              omega
            have ht : tiesHero heroBest h = false := by
              simp only [tiesHero, decide_eq_false_iff_not]
              omega
            simp [hb, ht]

/-- Characterization of one trial: under a board-completable deck, the
trial returns exactly the outcome determined by comparing hero's value
with every dealt opponent's value. -/
theorem simulateOnce_spec (tmp heroHole community : List Card) (n : Nat)
    (hHole : heroHole.length = 2) (hComm : community.length ≤ 5)
    (hTmp : 5 - community.length ≤ tmp.length) :
    ∃ heroBest hs,
      EvaluateBestHand (heroHole ++ (community ++ tmp.take (5 - community.length))) =
        some heroBest ∧
      oppHands (community ++ tmp.take (5 - community.length)) n
        (tmp.drop (5 - community.length)) = some hs ∧
      hs.length = min n ((tmp.length - (5 - community.length)) / 2) ∧
      simulateOnce tmp heroHole community n =
        some (if hs.any (beatsHero heroBest) then (false, true, false)
          else if hs.any (tiesHero heroBest) then (false, false, true)
          else (true, false, false)) := by
  have hsc : (community ++ tmp.take (5 - community.length)).length = 5 := by
    simp only [List.length_append, List.length_take]
    omega
  obtain ⟨hb, hhb⟩ := evaluateBestHand_of_length
    (heroHole ++ (community ++ tmp.take (5 - community.length)))
    (by simp only [List.length_append, hHole, hsc])
  obtain ⟨hs, hhs, hlen⟩ := oppHands_some _ hsc n (tmp.drop (5 - community.length))
  refine ⟨hb, hs, hhb, hhs, ?_, ?_⟩
  · rw [hlen, List.length_drop]
  · unfold simulateOnce
    rw [if_neg (by omega)]
    simp only [hhb,
      oppLoop_spec hb (community ++ tmp.take (5 - community.length)) n
        (tmp.drop (5 - community.length)) false 0 hs hhs,
      Bool.false_or, Nat.zero_add]
    by_cases hany : hs.any (beatsHero hb) = true
    · simp [hany]
    · rw [Bool.not_eq_true] at hany
      simp only [hany, if_false, Bool.false_eq_true]
      have hcount : hs.countP (tiesHero hb) > 0 ↔ hs.any (tiesHero hb) = true := by
        rw [gt_iff_lt, List.countP_pos_iff, List.any_eq_true]
      by_cases hties : hs.any (tiesHero hb) = true
      · rw [if_pos (hcount.mpr hties), if_pos hties]
      · rw [Bool.not_eq_true] at hties
        rw [if_neg (fun h => Bool.false_ne_true (hties ▸ hcount.mp h)), hties]
        simp

/- ### C2: trial outcomes are decided by hand comparison -/

/-- C2: in every trial whose deck covers the board and all opponents,
the outcome is a villain win exactly when some opponent's value is
strictly greater than hero's; otherwise a tie exactly when some
opponent's value equals hero's; otherwise a hero win — and the returned
outcome is always exactly one of those three. -/
theorem simulate_once_outcome (tmp heroHole community : List Card) (n : Nat)
    (hHole : heroHole.length = 2) (hComm : community.length ≤ 5)
    (hTmp : 5 - community.length ≤ tmp.length)
    (hOpp : 2 * n ≤ tmp.length - (5 - community.length)) :
    ∃ heroBest hs,
      EvaluateBestHand (heroHole ++ (community ++ tmp.take (5 - community.length))) =
        some heroBest ∧
      oppHands (community ++ tmp.take (5 - community.length)) n
        (tmp.drop (5 - community.length)) = some hs ∧
      hs.length = n ∧
      simulateOnce tmp heroHole community n =
        some (if hs.any (beatsHero heroBest) then (false, true, false)
          else if hs.any (tiesHero heroBest) then (false, false, true)
          else (true, false, false)) ∧
      (∀ r, simulateOnce tmp heroHole community n = some r →
        r = (false, true, false) ∨ r = (false, false, true) ∨ r = (true, false, false)) := by
  obtain ⟨hb, hs, hhb, hhs, hlen, heq⟩ := simulateOnce_spec tmp heroHole community n
    hHole hComm hTmp
  refine ⟨hb, hs, hhb, hhs, ?_, heq, ?_⟩
  · rw [hlen]
    omega
  · intro r hr
    rw [heq] at hr
    simp only [Option.some.injEq] at hr
    subst hr
    by_cases h1 : hs.any (beatsHero hb) = true
    · simp [h1]
    · rw [Bool.not_eq_true] at h1
      by_cases h2 : hs.any (tiesHero hb) = true
      · simp [h1, h2]
      · rw [Bool.not_eq_true] at h2
        simp [h1, h2]

/-- Witness for C2: a concrete complete board, two opponents. -/
theorem simulate_once_outcome_witness :
    ∃ heroBest hs,
      EvaluateBestHand ([HA, HK] ++ ([HQ, HJ, HT, S2, S3] ++
        ([H2, H5, D2, D6] : List Card).take (5 - 5))) = some heroBest ∧
      oppHands ([HQ, HJ, HT, S2, S3] ++ ([H2, H5, D2, D6] : List Card).take (5 - 5)) 2
        (([H2, H5, D2, D6] : List Card).drop (5 - 5)) = some hs ∧
      hs.length = 2 ∧
      simulateOnce [H2, H5, D2, D6] [HA, HK] [HQ, HJ, HT, S2, S3] 2 =
        some (if hs.any (beatsHero heroBest) then (false, true, false)
          else if hs.any (tiesHero heroBest) then (false, false, true)
          else (true, false, false)) ∧
      (∀ r, simulateOnce [H2, H5, D2, D6] [HA, HK] [HQ, HJ, HT, S2, S3] 2 = some r →
        r = (false, true, false) ∨ r = (false, false, true) ∨ r = (true, false, false)) := by
  have h := simulate_once_outcome [H2, H5, D2, D6] [HA, HK] [HQ, HJ, HT, S2, S3] 2
    (by decide) (by decide) (by decide) (by decide)
  simpa using h

/- ### Counting trials -/

theorem simulateOnce_cases (tmp heroHole community : List Card) (n : Nat)
    (hHole : heroHole.length = 2) (hComm : community.length ≤ 5)
    (hTmp : 5 - community.length ≤ tmp.length) :
    ∃ r, simulateOnce tmp heroHole community n = some r ∧
      (r = (false, true, false) ∨ r = (false, false, true) ∨ r = (true, false, false)) := by
  obtain ⟨hb, hs, _, _, _, heq⟩ := simulateOnce_spec tmp heroHole community n
    hHole hComm hTmp
  refine ⟨_, heq, ?_⟩
  by_cases h1 : hs.any (beatsHero hb) = true
  · simp [h1]
  · rw [Bool.not_eq_true] at h1
    by_cases h2 : hs.any (tiesHero hb) = true
    · simp [h1, h2]
    · rw [Bool.not_eq_true] at h2
      simp [h1, h2]

theorem tallyTrial_counts (acc : SimulationResult) (r : Bool × Bool × Bool)
    (hr : r = (false, true, false) ∨ r = (false, false, true) ∨ r = (true, false, false)) :
    (tallyTrial acc r).TrialsRun = acc.TrialsRun + 1 ∧
      (tallyTrial acc r).HeroWins + (tallyTrial acc r).VillainWins + (tallyTrial acc r).Ties =
        acc.HeroWins + acc.VillainWins + acc.Ties + 1 := by
  rcases hr with hr | hr | hr <;> subst hr <;> simp [tallyTrial] <;> omega

theorem workerLoop_counts (sh : Nat → List Card) (heroHole community : List Card)
    (numOpponents : Nat) (hHole : heroHole.length = 2) (hComm : community.length ≤ 5)
    (hsh : ∀ i, 5 - community.length ≤ (sh i).length) :
    ∀ (count i : Nat) (acc : SimulationResult),
      ∃ r, workerLoop sh heroHole community numOpponents i count acc = some r ∧
        r.TrialsRun = acc.TrialsRun + count ∧
        r.HeroWins + r.VillainWins + r.Ties =
          acc.HeroWins + acc.VillainWins + acc.Ties + count := by
  intro count
  induction count with
  | zero => intro i acc; exact ⟨acc, rfl, by omega, by omega⟩
  | succ count ih =>
    intro i acc
    obtain ⟨out, hout, hcases⟩ := simulateOnce_cases (sh i) heroHole community
      numOpponents hHole hComm (hsh i)
    obtain ⟨r, hr, htr, hsum⟩ := ih (i + 1) (tallyTrial acc out)
    obtain ⟨ht1, ht2⟩ := tallyTrial_counts acc out hcases
    refine ⟨r, ?_, by omega, by omega⟩
    simp only [workerLoop, hout]
    exact hr

theorem workerRun_counts (sh : Nat → List Card) (heroHole community : List Card)
    (numOpponents : Nat) (hHole : heroHole.length = 2) (hComm : community.length ≤ 5)
    (hsh : ∀ i, 5 - community.length ≤ (sh i).length) (count : Nat) :
    ∃ r, workerRun sh heroHole community numOpponents count = some r ∧
      r.TrialsRun = count ∧
      r.HeroWins + r.VillainWins + r.Ties = count := by
  obtain ⟨r, hr, htr, hsum⟩ := workerLoop_counts sh heroHole community numOpponents
    hHole hComm hsh count 0 ⟨0, 0, 0, 0⟩
  exact ⟨r, hr, by simpa using htr, by simpa using hsum⟩

theorem runWorkers_counts (shuffles : Nat → Nat → List Card)
    (heroHole community : List Card) (numOpponents : Nat) (tw : Nat → Nat)
    (hHole : heroHole.length = 2) (hComm : community.length ≤ 5)
    (hsh : ∀ w i, 5 - community.length ≤ (shuffles w i).length) :
    ∀ workers : Nat,
      ∃ r, runWorkers shuffles heroHole community numOpponents tw workers = some r ∧
        r.TrialsRun = ((List.range workers).map tw).sum ∧
        r.HeroWins + r.VillainWins + r.Ties = ((List.range workers).map tw).sum := by
  intro workers
  induction workers with
  | zero => exact ⟨⟨0, 0, 0, 0⟩, rfl, by simp, by simp⟩
  | succ workers ih =>
    obtain ⟨r, hr, htr, hsum⟩ := ih
    obtain ⟨rw, hrw, hrwt, hrws⟩ := workerRun_counts (shuffles workers) heroHole
      community numOpponents hHole hComm (hsh workers) (tw workers)
    refine ⟨addResults r rw, ?_, ?_, ?_⟩
    · unfold runWorkers at hr ⊢
      rw [List.range_succ, List.foldl_append, hr]
      simp only [List.foldl_cons, List.foldl_nil, hrw]
    · simp only [List.range_succ, List.map_append, List.sum_append, addResults,
        List.map_cons, List.map_nil, List.sum_cons, List.sum_nil]
      omega
    · simp only [List.range_succ, List.map_append, List.sum_append, addResults,
        List.map_cons, List.map_nil, List.sum_cons, List.sum_nil]
      omega

/-- The whole simulation, for positive trial counts: it succeeds and the
counters add up, with `TrialsRun` equal to the requested trial count.
Note no bound on `numOpponents` relative to the deck is needed: a deck
too small for all opponents still yields counted trials. -/
theorem simulate_equity_counts_aux (shuffles : Nat → Nat → List Card)
    (heroHole community : List Card) (numOpponents trials : Int)
    (hHole : heroHole.length = 2)
    (hComm : community.length = 0 ∨ community.length = 3 ∨
      community.length = 4 ∨ community.length = 5)
    (hOpp : 1 ≤ numOpponents) (hTrials : 1 ≤ trials)
    (hsh : ∀ w i, 5 - community.length ≤ (shuffles w i).length) :
    ∃ r, SimulateEquity shuffles heroHole community numOpponents trials = some r ∧
      r.HeroWins + r.VillainWins + r.Ties = r.TrialsRun ∧
      (r.TrialsRun : Int) = trials := by
  have hComm5 : community.length ≤ 5 := by rcases hComm with h | h | h | h <;> omega
  unfold SimulateEquity
  rw [if_neg (by simp [hHole]), if_neg (by rcases hComm with h | h | h | h <;> simp [h]),
    if_neg (by omega), if_neg (by omega)]
  have ht1 : 1 ≤ trials.toNat := by omega
  obtain ⟨r, hr, htr, hsum⟩ := runWorkers_counts shuffles heroHole community
    numOpponents.toNat
    (fun w => trials.toNat / (if trials.toNat < 4 then trials.toNat else 4) +
      if w = 0 then trials.toNat % (if trials.toNat < 4 then trials.toNat else 4) else 0)
    hHole hComm5 hsh (if trials.toNat < 4 then trials.toNat else 4)
  refine ⟨r, hr, by omega, ?_⟩
  have htotal : ((List.range (if trials.toNat < 4 then trials.toNat else 4)).map
      (fun w => trials.toNat / (if trials.toNat < 4 then trials.toNat else 4) +
        if w = 0 then trials.toNat % (if trials.toNat < 4 then trials.toNat else 4) else 0)).sum =
      trials.toNat := by
    by_cases h4 : trials.toNat < 4
    · rw [if_pos h4]
      interval_cases h : trials.toNat <;> simp [List.range_succ]
    · rw [if_neg h4]
      have : List.range 4 = [0, 1, 2, 3] := rfl
      rw [this]
      simp only [List.map_cons, List.map_nil, List.sum_cons, List.sum_nil]
      norm_num
      omega
  rw [htr, htotal]
  omega

/- ### C6: the counters add up to the trial count -/

/-- C6: for every valid input and every shuffle oracle able to complete
the board, the simulation returns counters with
`HeroWins + VillainWins + Ties = TrialsRun` and `TrialsRun = trials`
(the per-worker counts, quotient plus remainder to worker 0, sum to the
requested total). -/
theorem simulate_equity_counts (shuffles : Nat → Nat → List Card)
    (heroHole community : List Card) (numOpponents trials : Int)
    (hHole : heroHole.length = 2)
    (hComm : community.length = 0 ∨ community.length = 3 ∨
      community.length = 4 ∨ community.length = 5)
    (hOpp : 1 ≤ numOpponents) (hTrials : 1 ≤ trials)
    (hsh : ∀ w i, 5 - community.length ≤ (shuffles w i).length) :
    ∃ r, SimulateEquity shuffles heroHole community numOpponents trials = some r ∧
      r.HeroWins + r.VillainWins + r.Ties = r.TrialsRun ∧
      (r.TrialsRun : Int) = trials :=
  simulate_equity_counts_aux shuffles heroHole community numOpponents trials
    hHole hComm hOpp hTrials hsh

/-- Witness for C6: a concrete heads-up simulation, 7 trials across 4
workers. -/
theorem simulate_equity_counts_witness :
    ∃ r, SimulateEquity (fun _ _ => [H2, H5, D2, D6])
        [HA, HK] [HQ, HJ, HT, S2, S3] 1 7 = some r ∧
      r.HeroWins + r.VillainWins + r.Ties = r.TrialsRun ∧
      (r.TrialsRun : Int) = 7 :=
  simulate_equity_counts (fun _ _ => [H2, H5, D2, D6]) [HA, HK] [HQ, HJ, HT, S2, S3]
    1 7 (by decide) (by decide) (by decide) (by decide) (fun _ _ => Nat.zero_le _)

/- ### C8: a deck too small for all opponents -/

/-- C8 counterexample: with a full 5-card board, hero's 2 cards and 23
opponents, the 45-card remaining deck cannot deal 2 cards to every
opponent (45 < 46).  The claimed fatal configuration error does not
happen: only 22 opponents are dealt, and the simulation returns a
normal result with the truncated trial counted (`TrialsRun = 1`). -/
theorem simulate_equity_overfull_counterexample :
    (filteredDeck [HA, HK] [HQ, HJ, HT, S2, S3]).length <
      2 * 23 + (5 - ([HQ, HJ, HT, S2, S3] : List Card).length) ∧
    (∃ hs, oppHands ([HQ, HJ, HT, S2, S3] ++
        (filteredDeck [HA, HK] [HQ, HJ, HT, S2, S3]).take
          (5 - ([HQ, HJ, HT, S2, S3] : List Card).length)) 23
        ((filteredDeck [HA, HK] [HQ, HJ, HT, S2, S3]).drop
          (5 - ([HQ, HJ, HT, S2, S3] : List Card).length)) = some hs ∧
      hs.length = 22) ∧
    ∃ r, SimulateEquity (fun _ _ => filteredDeck [HA, HK] [HQ, HJ, HT, S2, S3])
        [HA, HK] [HQ, HJ, HT, S2, S3] 23 1 = some r ∧ r.TrialsRun = 1 := by
  have hlen : (filteredDeck [HA, HK] [HQ, HJ, HT, S2, S3]).length = 45 := by decide
  refine ⟨by rw [hlen]; decide, ?_, ?_⟩
  · obtain ⟨hs, hhs, hl⟩ := oppHands_some
      ([HQ, HJ, HT, S2, S3] ++ (filteredDeck [HA, HK] [HQ, HJ, HT, S2, S3]).take
        (5 - ([HQ, HJ, HT, S2, S3] : List Card).length))
      (by simp) 23
      ((filteredDeck [HA, HK] [HQ, HJ, HT, S2, S3]).drop
        (5 - ([HQ, HJ, HT, S2, S3] : List Card).length))
    refine ⟨hs, hhs, ?_⟩
    rw [hl, List.length_drop, hlen]
    decide
  · obtain ⟨r, hr, _, htr⟩ := simulate_equity_counts_aux
      (fun _ _ => filteredDeck [HA, HK] [HQ, HJ, HT, S2, S3])
      [HA, HK] [HQ, HJ, HT, S2, S3] 23 1
      (by decide) (by decide) (by decide) (by decide) (fun _ _ => Nat.zero_le _)
    exact ⟨r, hr, by omega⟩

/-- C8 amended: when the shuffled deck holds fewer cards than required
for the board and 2 cards per opponent, `simulateOnce` silently stops
dealing opponents (strictly fewer hands than requested are evaluated),
decides the trial from the opponents actually dealt, and the trial still
produces a normal, counted outcome — no fatal error is reported. -/
theorem simulate_once_truncated_still_counts (tmp heroHole community : List Card)
    (n : Nat) (hHole : heroHole.length = 2) (hComm : community.length ≤ 5)
    (hTmp : 5 - community.length ≤ tmp.length)
    (hshort : tmp.length < 2 * n + (5 - community.length)) :
    ∃ heroBest hs,
      EvaluateBestHand (heroHole ++ (community ++ tmp.take (5 - community.length))) =
        some heroBest ∧
      oppHands (community ++ tmp.take (5 - community.length)) n
        (tmp.drop (5 - community.length)) = some hs ∧
      hs.length < n ∧
      simulateOnce tmp heroHole community n =
        some (if hs.any (beatsHero heroBest) then (false, true, false)
          else if hs.any (tiesHero heroBest) then (false, false, true)
          else (true, false, false)) := by
  obtain ⟨hb, hs, h1, h2, h3, h4⟩ := simulateOnce_spec tmp heroHole community n
    hHole hComm hTmp
  refine ⟨hb, hs, h1, h2, ?_, h4⟩
  rw [h3, Nat.min_def]
  split_ifs with h <;> omega

/-- Witness for the amended C8: empty remaining deck, complete board,
one opponent who therefore never gets cards. -/
theorem simulate_once_truncated_still_counts_witness :
    ∃ heroBest hs,
      EvaluateBestHand ([HA, HK] ++ ([HQ, HJ, HT, S2, S3] ++
        ([] : List Card).take (5 - ([HQ, HJ, HT, S2, S3] : List Card).length))) =
        some heroBest ∧
      oppHands ([HQ, HJ, HT, S2, S3] ++
        ([] : List Card).take (5 - ([HQ, HJ, HT, S2, S3] : List Card).length)) 1
        (([] : List Card).drop (5 - ([HQ, HJ, HT, S2, S3] : List Card).length)) =
        some hs ∧
      hs.length < 1 ∧
      simulateOnce [] [HA, HK] [HQ, HJ, HT, S2, S3] 1 =
        some (if hs.any (beatsHero heroBest) then (false, true, false)
          else if hs.any (tiesHero heroBest) then (false, false, true)
          else (true, false, false)) :=
  simulate_once_truncated_still_counts [] [HA, HK] [HQ, HJ, HT, S2, S3] 1
    (by decide) (by decide) (by decide) (by decide)

/- ### C7: non-positive trial counts -/

/-- C7: for every valid hero hole, community and opponent count, a trial
count `trials ≤ 0` does not fail: the result is all-zero. -/
theorem simulate_equity_nonpositive_trials (shuffles : Nat → Nat → List Card)
    (heroHole community : List Card) (numOpponents trials : Int)
    (hHole : heroHole.length = 2)
    (hComm : community.length = 0 ∨ community.length = 3 ∨
      community.length = 4 ∨ community.length = 5)
    (hOpp : 1 ≤ numOpponents) (hTrials : trials ≤ 0) :
    SimulateEquity shuffles heroHole community numOpponents trials =
      some ⟨0, 0, 0, 0⟩ := by
  unfold SimulateEquity
  rw [if_neg (by simp [hHole]), if_neg (by rcases hComm with h | h | h | h <;> simp [h]),
    if_neg (by omega), if_pos hTrials]

/-- Witness for C7 at a concrete valid input with 0 trials. -/
theorem simulate_equity_nonpositive_trials_witness :
    SimulateEquity (fun _ _ => []) [HA, HK] [] 1 0 = some ⟨0, 0, 0, 0⟩ :=
  simulate_equity_nonpositive_trials (fun _ _ => []) [HA, HK] [] 1 0
    (by decide) (Or.inl (by decide)) (by decide) (by decide)

/- ### Permutation invariance of the 5-card classifier

`evaluate5` sorts its input by rank; every helper it then applies reads
only the rank sequence (and suit counts), so its result depends only on
the multiset of cards. -/

instance : IsAntisymm Rank (fun a b : Rank => b ≤ a) :=
  ⟨fun _ _ h h' => le_antisymm h' h⟩

theorem sortCards_perm (l : List Card) : (sortCards l).Perm l :=
  List.perm_insertionSort rankDescRel l

theorem sortCards_sorted (l : List Card) : (sortCards l).Sorted rankDescRel :=
  List.sorted_insertionSort rankDescRel l

theorem ranksOnly_sorted_of_sorted (l : List Card) (h : l.Sorted rankDescRel) :
    (ranksOnly l).Sorted (fun a b : Rank => b ≤ a) :=
  List.Pairwise.map (fun c : Card => c.rank) (fun _ _ hr => hr) h

/-- The rank sequence of the sorted hand depends only on the multiset of
cards. -/
theorem ranksOnly_sortCards_congr (l l' : List Card) (h : l.Perm l') :
    ranksOnly (sortCards l) = ranksOnly (sortCards l') := by
  have hp : (ranksOnly (sortCards l)).Perm (ranksOnly (sortCards l')) :=
    (((sortCards_perm l).trans h).trans (sortCards_perm l').symm).map _
  exact List.eq_of_perm_of_sorted hp
    (ranksOnly_sorted_of_sorted _ (sortCards_sorted l))
    (ranksOnly_sorted_of_sorted _ (sortCards_sorted l'))

/-- The rank sequence of the suit-filtered sorted hand depends only on
the multiset of cards. -/
theorem ranksOnly_filterBySuit_sortCards_congr (l l' : List Card) (h : l.Perm l')
    (s : Suit) :
    ranksOnly (filterBySuit (sortCards l) s) =
      ranksOnly (filterBySuit (sortCards l') s) := by
  have hp : (ranksOnly (filterBySuit (sortCards l) s)).Perm
      (ranksOnly (filterBySuit (sortCards l') s)) :=
    ((((sortCards_perm l).trans h).trans (sortCards_perm l').symm).filter _).map _
  exact List.eq_of_perm_of_sorted hp
    (ranksOnly_sorted_of_sorted _ ((sortCards_sorted l).filter _))
    (ranksOnly_sorted_of_sorted _ ((sortCards_sorted l').filter _))

theorem countSuit_congr (l l' : List Card) (h : l.Perm l') (s : Suit) :
    countSuit l s = countSuit l' s :=
  h.countP_eq _

theorem detectFlush_congr (l l' : List Card) (h : l.Perm l') :
    detectFlush l = detectFlush l' := by
  have hc : ∀ s, countSuit l s = countSuit l' s := countSuit_congr l l' h
  unfold detectFlush
  simp only [hc]

theorem hasRank_eq_ranks (l : List Card) (r : Rank) :
    hasRank l r = (ranksOnly l).any (fun x => decide (x = r)) := by
  induction l with
  | nil => rfl
  | cons c cs ih =>
    simp only [hasRank, ranksOnly, List.any_cons, List.map_cons] at ih ⊢
    rw [ih]

theorem hasRank_congr (l l' : List Card) (h : ranksOnly l = ranksOnly l')
    (r : Rank) : hasRank l r = hasRank l' r := by
  rw [hasRank_eq_ranks, hasRank_eq_ranks, h]

theorem straightAt_congr (l l' : List Card) (h : ranksOnly l = ranksOnly l')
    (start : Rank) : straightAt l start = straightAt l' start := by
  unfold straightAt
  congr 1
  funext off
  exact hasRank_congr l l' h _

theorem detectStraight_congr (l l' : List Card) (h : ranksOnly l = ranksOnly l') :
    detectStraight l = detectStraight l' := by
  have h1 : ∀ r, hasRank l r = hasRank l' r := hasRank_congr l l' h
  have h2 : ∀ st, straightAt l st = straightAt l' st := straightAt_congr l l' h
  unfold detectStraight
  simp only [h1, h2]

theorem rankCountPairs_congr (l l' : List Card) (h : ranksOnly l = ranksOnly l') :
    rankCountPairs l = rankCountPairs l' := by
  unfold rankCountPairs
  rw [h]

theorem highestDifferentRank_congr (l l' : List Card)
    (h : ranksOnly l = ranksOnly l') (ex : List Rank) :
    highestDifferentRank l ex = highestDifferentRank l' ex := by
  have rank_find : ∀ m : List Card,
      Option.map (fun c : Card => c.rank) (m.find? (fun c => ¬ c.rank ∈ ex)) =
        (ranksOnly m).find? (fun r => ¬ r ∈ ex) := by
    intro m
    induction m with
    | nil => rfl
    | cons c cs ih =>
      by_cases hc : c.rank ∈ ex
      · have hd : (decide ¬(c.rank ∈ ex)) = false := by simp [hc]
        simp only [ranksOnly, List.map_cons, List.find?_cons, hd]
        exact ih
      · have hd : (decide ¬(c.rank ∈ ex)) = true := by simp [hc]
        simp only [ranksOnly, List.map_cons, List.find?_cons, hd]
        rfl
  unfold highestDifferentRank
  have h1 := rank_find l
  have h2 := rank_find l'
  rw [h] at h1
  rw [← h2] at h1
  cases hfl : l.find? (fun c => ¬ c.rank ∈ ex) with
  | none =>
    rw [hfl] at h1
    cases hfl' : l'.find? (fun c => ¬ c.rank ∈ ex) with
    | none => rfl
    | some c' => rw [hfl'] at h1; exact absurd h1 (by simp)
  | some c =>
    rw [hfl] at h1
    cases hfl' : l'.find? (fun c => ¬ c.rank ∈ ex) with
    | none => rw [hfl'] at h1; exact absurd h1 (by simp)
    | some c' =>
      rw [hfl'] at h1
      simpa using h1

theorem ranksOnly_filter_exclude (l : List Card) (ex : List Rank) :
    ranksOnly (l.filter (fun c => ¬ c.rank ∈ ex)) =
      (ranksOnly l).filter (fun r => ¬ r ∈ ex) := by
  induction l with
  | nil => rfl
  | cons c cs ih =>
    by_cases hc : c.rank ∈ ex
    · have hd : (decide ¬(c.rank ∈ ex)) = false := by simp [hc]
      simp only [ranksOnly, List.map_cons, List.filter_cons, hd, if_false,
        Bool.false_eq_true]
      exact ih
    · have hd : (decide ¬(c.rank ∈ ex)) = true := by simp [hc]
      simp only [ranksOnly, List.map_cons, List.filter_cons, hd, if_true,
        List.map_cons]
      simp only [ranksOnly] at ih
      rw [ih]

theorem topKickersExcluding_congr (l l' : List Card)
    (h : ranksOnly l = ranksOnly l') (ex : List Rank) :
    topKickersExcluding l ex = topKickersExcluding l' ex := by
  unfold topKickersExcluding
  rw [ranksOnly_filter_exclude, ranksOnly_filter_exclude, h]

theorem topThreeKickersExcluding_congr (l l' : List Card)
    (h : ranksOnly l = ranksOnly l') (ex : List Rank) :
    topThreeKickersExcluding l ex = topThreeKickersExcluding l' ex := by
  unfold topThreeKickersExcluding
  rw [ranksOnly_filter_exclude, ranksOnly_filter_exclude, h]

/-- `evaluate5` is invariant under permutation of its 5 cards. -/
theorem evaluate5_perm (l l' : List Card) (h : l.Perm l') :
    evaluate5 l = evaluate5 l' := by
  have hranks : ranksOnly (sortCards l) = ranksOnly (sortCards l') :=
    ranksOnly_sortCards_congr l l' h
  have hfl : detectFlush (sortCards l) = detectFlush (sortCards l') :=
    detectFlush_congr _ _ (((sortCards_perm l).trans h).trans (sortCards_perm l').symm)
  have hst : detectStraight (sortCards l) = detectStraight (sortCards l') :=
    detectStraight_congr _ _ hranks
  have hfranks : ∀ s, ranksOnly (filterBySuit (sortCards l) s) =
      ranksOnly (filterBySuit (sortCards l') s) :=
    ranksOnly_filterBySuit_sortCards_congr l l' h
  have hfst : ∀ s, detectStraight (filterBySuit (sortCards l) s) =
      detectStraight (filterBySuit (sortCards l') s) :=
    fun s => detectStraight_congr _ _ (hfranks s)
  have hpairs : rankCountPairs (sortCards l) = rankCountPairs (sortCards l') :=
    rankCountPairs_congr _ _ hranks
  have hhdr : ∀ ex, highestDifferentRank (sortCards l) ex =
      highestDifferentRank (sortCards l') ex :=
    highestDifferentRank_congr _ _ hranks
  have htk : ∀ ex, topKickersExcluding (sortCards l) ex =
      topKickersExcluding (sortCards l') ex :=
    topKickersExcluding_congr _ _ hranks
  have htk3 : ∀ ex, topThreeKickersExcluding (sortCards l) ex =
      topThreeKickersExcluding (sortCards l') ex :=
    topThreeKickersExcluding_congr _ _ hranks
  unfold evaluate5
  simp only [hranks, hfl, hst, hfranks, hfst, hpairs, hhdr, htk, htk3]

/- ### C5: permutation invariance of the best-hand search -/

theorem mem_combinations_iff : ∀ (l : List Card) (k : Nat) (s : List Card),
    s ∈ combinations l k ↔ s.Sublist l ∧ s.length = k := by
  intro l
  induction l with
  | nil =>
    intro k s
    cases k with
    | zero =>
      simp only [combinations, List.mem_singleton]
      constructor
      · rintro rfl
        exact ⟨List.Sublist.refl _, rfl⟩
      · rintro ⟨hsub, hlen⟩
        cases List.sublist_nil.mp hsub
        rfl
    | succ k =>
      simp only [combinations, List.not_mem_nil, false_iff, not_and]
      intro hsub
      cases List.sublist_nil.mp hsub
      simp
  | cons x xs ih =>
    intro k s
    cases k with
    | zero =>
      simp only [combinations, List.mem_singleton]
      constructor
      · rintro rfl
        exact ⟨List.nil_sublist _, rfl⟩
      · rintro ⟨_, hlen⟩
        exact List.length_eq_zero.mp hlen
    | succ k =>
      simp only [combinations, List.mem_append, List.mem_map]
      constructor
      · rintro (⟨t, ht, rfl⟩ | hmem)
        · obtain ⟨hsub, hlen⟩ := (ih k t).mp ht
          exact ⟨hsub.cons₂ x, by simp [hlen]⟩
        · obtain ⟨hsub, hlen⟩ := (ih (k + 1) s).mp hmem
          exact ⟨hsub.cons x, hlen⟩
      · rintro ⟨hsub, hlen⟩
        cases s with
        | nil => simp at hlen
        | cons y t =>
          cases hsub with
          | cons _ h =>
            exact Or.inr ((ih (k + 1) (y :: t)).mpr ⟨h, hlen⟩)
          | cons₂ _ h =>
            exact Or.inl ⟨t, (ih k t).mpr ⟨h, by simpa using hlen⟩, rfl⟩

theorem bestHandValue_spec (vs : List HandValue) : ∀ (v : HandValue),
    bestHandValue v vs ∈ v :: vs ∧
      ∀ x ∈ v :: vs, CompareHandValues x (bestHandValue v vs) ≤ 0 := by
  induction vs with
  | nil =>
    intro v
    constructor
    · simp [bestHandValue]
    · intro x hx
      rcases List.mem_singleton.mp hx with rfl
      simp [bestHandValue, CompareHandValues_self]
  | cons w ws ih =>
    intro v
    have hstep : bestHandValue v (w :: ws) =
        bestHandValue (if CompareHandValues w v > 0 then w else v) ws := rfl
    obtain ⟨hmem, hge⟩ := ih (if CompareHandValues w v > 0 then w else v)
    have hhead : CompareHandValues (if CompareHandValues w v > 0 then w else v)
        (bestHandValue (if CompareHandValues w v > 0 then w else v) ws) ≤ 0 :=
      hge _ (List.mem_cons_self _ _)
    constructor
    · rw [hstep]
      rcases List.mem_cons.mp hmem with hb | hb
      · by_cases hwv : CompareHandValues w v > 0
        · rw [if_pos hwv] at hb ⊢
          rw [hb]
          exact List.mem_cons_of_mem _ (List.mem_cons_self _ _)
        · rw [if_neg hwv] at hb ⊢
          rw [hb]
          exact List.mem_cons_self _ _
      · exact List.mem_cons_of_mem _ (List.mem_cons_of_mem _ hb)
    · intro x hx
      rw [hstep]
      rcases List.mem_cons.mp hx with rfl | hx'
      · by_cases hwv : CompareHandValues w x > 0
        · rw [if_pos hwv] at hmem hge hhead
          have h1 : CompareHandValues x w ≤ 0 := by
            have := CompareHandValues_neg x w
            omega
          have h2 : CompareHandValues
              (bestHandValue w ws) w ≥ 0 := by
            have := CompareHandValues_neg (bestHandValue w ws) w
            omega
          have h3 : CompareHandValues w x ≥ 0 := by omega
          have h4 := CompareHandValues_trans _ _ _ h2 h3
          have := CompareHandValues_neg x (bestHandValue w ws)
          rw [if_pos hwv]
          omega
        · rw [if_neg hwv] at hmem hge hhead
          rw [if_neg hwv]
          exact hhead
      · rcases List.mem_cons.mp hx' with rfl | hx''
        · by_cases hwv : CompareHandValues x v > 0
          · rw [if_pos hwv] at hmem hge hhead
            rw [if_pos hwv]
            exact hhead
          · rw [if_neg hwv] at hmem hge hhead
            have h1 : CompareHandValues x v ≤ 0 := by omega
            have h2 : CompareHandValues
                (bestHandValue v ws) v ≥ 0 := by
              have := CompareHandValues_neg (bestHandValue v ws) v
              omega
            have h3 : CompareHandValues v x ≥ 0 := by
              have := CompareHandValues_neg v x
              omega
            have h4 := CompareHandValues_trans _ _ _ h2 h3
            have := CompareHandValues_neg x (bestHandValue v ws)
            rw [if_neg hwv]
            omega
        · exact hge x (List.mem_cons_of_mem _ hx'')

theorem best_eq_of_cross (b1 b2 : HandValue) (l1 l2 : List HandValue)
    (h1m : b1 ∈ l1) (h1g : ∀ x ∈ l1, CompareHandValues x b1 ≤ 0)
    (h2m : b2 ∈ l2) (h2g : ∀ x ∈ l2, CompareHandValues x b2 ≤ 0)
    (h12 : ∀ x ∈ l1, x ∈ l2) (h21 : ∀ x ∈ l2, x ∈ l1) : b1 = b2 := by
  have hA : CompareHandValues b1 b2 ≤ 0 := h2g b1 (h12 b1 h1m)
  have hB : CompareHandValues b2 b1 ≤ 0 := h1g b2 (h21 b2 h2m)
  have hneg := CompareHandValues_neg b1 b2
  exact (CompareHandValues_eq_zero_iff b1 b2).mp (by omega)

/-- C5: `EvaluateBestHand` returns the same `HandValue` on every
permutation of a 7-card input. -/
theorem evaluate_best_hand_permutation (cards cards' : List Card)
    (h7 : cards.length = 7) (hp : cards.Perm cards') :
    EvaluateBestHand cards = EvaluateBestHand cards' := by
  have h7' : cards'.length = 7 := by rw [← hp.length_eq]; exact h7
  have hne : ∀ (l : List Card), l.length = 7 →
      ∃ v vs, (combinations l 5).map evaluate5 = v :: vs := by
    intro l hl
    have hmem : l.take 5 ∈ combinations l 5 :=
      (mem_combinations_iff l 5 _).mpr
        ⟨List.take_sublist 5 l, by rw [List.length_take]; omega⟩
    cases hc : combinations l 5 with
    | nil => rw [hc] at hmem; exact absurd hmem (List.not_mem_nil _)
    | cons c cs => exact ⟨evaluate5 c, cs.map evaluate5, by simp [hc]⟩
  have cross : ∀ (A B : List Card), A.Perm B →
      ∀ x ∈ (combinations A 5).map evaluate5, x ∈ (combinations B 5).map evaluate5 := by
    intro A B hAB x hx
    obtain ⟨s, hs, rfl⟩ := List.mem_map.mp hx
    obtain ⟨hsub, hlen⟩ := (mem_combinations_iff A 5 s).mp hs
    have hsp : s.Subperm B := (hAB.subperm_left).mp hsub.subperm
    obtain ⟨t, hts, htsub⟩ := hsp
    have htlen : t.length = 5 := by rw [hts.length_eq, hlen]
    exact List.mem_map.mpr
      ⟨t, (mem_combinations_iff B 5 t).mpr ⟨htsub, htlen⟩, evaluate5_perm t s hts⟩
  obtain ⟨v, vs, hv⟩ := hne cards h7
  obtain ⟨v', vs', hv'⟩ := hne cards' h7'
  unfold EvaluateBestHand
  rw [if_pos h7, if_pos h7']
  simp only [hv, hv', Option.some.injEq]
  obtain ⟨h1m, h1g⟩ := bestHandValue_spec vs v
  obtain ⟨h2m, h2g⟩ := bestHandValue_spec vs' v'
  rw [← hv] at h1m h1g
  rw [← hv'] at h2m h2g
  exact best_eq_of_cross _ _ _ _ h1m h1g h2m h2g
    (cross cards cards' hp) (cross cards' cards hp.symm)

/-- Witness for C5: the straight-flush fixture against one of its
permutations. -/
theorem evaluate_best_hand_permutation_witness :
    EvaluateBestHand [HA, HK, HQ, HJ, HT, S2, S3] =
      EvaluateBestHand [S3, HK, HQ, S2, HT, HJ, HA] :=
  evaluate_best_hand_permutation [HA, HK, HQ, HJ, HT, S2, S3]
    [S3, HK, HQ, S2, HT, HJ, HA] (by decide) (by decide)

/- ### C3 and C10: the wheel -/

theorem hasRank_mem (l : List Card) (r : Rank) :
    hasRank l r = true ↔ r ∈ ranksOnly l := by
  simp only [hasRank, List.any_eq_true, decide_eq_true_eq, ranksOnly, List.mem_map]

/-- The five wheel ranks are all present in the sorted hand. -/
theorem wheel_hasRank (cards : List Card)
    (hsup : ∀ r ∈ ([Ace, Two, Three, Four, Five] : List Rank), r ∈ ranksOnly cards) :
    detectStraight (sortCards cards) = (true, Five) := by
  have hmem : ∀ r ∈ ([Ace, Two, Three, Four, Five] : List Rank),
      hasRank (sortCards cards) r = true := by
    intro r hr
    rw [hasRank_mem]
    have := hsup r hr
    exact ((sortCards_perm cards).map (fun c => c.rank)).mem_iff.mpr this
  have h1 := hmem Ace (by simp)
  have h2 := hmem Two (by simp)
  have h3 := hmem Three (by simp)
  have h4 := hmem Four (by simp)
  have h5 := hmem Five (by simp)
  unfold detectStraight
  rw [if_pos (by rw [h1, h2, h3, h4, h5]; rfl)]

/-- A 5-card hand that is not single-suited has no flush. -/
theorem no_flush_of_mixed (cards : List Card) (hlen : cards.length = 5)
    (hmixed : ∃ c ∈ cards, ∃ c' ∈ cards, c.suit ≠ c'.suit) :
    detectFlush (sortCards cards) = (false, Hearts) := by
  have hcount : ∀ s, ¬ countSuit (sortCards cards) s ≥ 5 := by
    intro s hks
    rw [countSuit_congr _ _ (sortCards_perm cards) s] at hks
    have hle : countSuit cards s ≤ 5 := by
      rw [← hlen]
      exact List.countP_le_length _
    have heq : countSuit cards s = cards.length := by
      omega
    have hall := List.countP_eq_length.mp heq
    obtain ⟨c, hc, c', hc', hne⟩ := hmixed
    have h1 := hall c hc
    have h2 := hall c' hc'
    simp only [decide_eq_true_eq] at h1 h2
    exact hne (h1.trans h2.symm)
  unfold detectFlush
  rw [if_neg (hcount Hearts), if_neg (hcount Diamonds), if_neg (hcount Clubs),
    if_neg (hcount Spades)]

/-- C3: every 5-card hand with rank set `{Ace, Two, Three, Four, Five}`
and not all of one suit classifies as a Straight with single kicker
`[Five]` — the wheel counts as a straight topped by Five, not Ace. -/
theorem evaluate5_wheel_straight (cards : List Card) (hlen : cards.length = 5)
    (hsub : ∀ r ∈ ranksOnly cards, r ∈ ([Ace, Two, Three, Four, Five] : List Rank))
    (hsup : ∀ r ∈ ([Ace, Two, Three, Four, Five] : List Rank), r ∈ ranksOnly cards)
    (hmixed : ∃ c ∈ cards, ∃ c' ∈ cards, c.suit ≠ c'.suit) :
    evaluate5 cards = ⟨Straight, [Five]⟩ := by
  have hDF := no_flush_of_mixed cards hlen hmixed
  have hDS := wheel_hasRank cards hsup
  unfold evaluate5
  simp only [hDF, hDS]
  simp

/-- Witness for C3: the wheel in four suits. -/
theorem evaluate5_wheel_straight_witness :
    evaluate5 [HA, D2, C3, S4, H5] = ⟨Straight, [Five]⟩ :=
  evaluate5_wheel_straight [HA, D2, C3, S4, H5] (by decide) (by decide) (by decide)
    ⟨HA, by decide, D2, by decide, by decide⟩

def H3 : Card := card Hearts Three
def H4 : Card := card Hearts Four

/-- C10: every single-suited 5-card hand with rank set
`{Ace, Two, Three, Four, Five}` (the steel wheel) classifies as a
Straight Flush with single kicker `[Five]`: the wheel rule applies
inside straight-flush detection too. -/
theorem evaluate5_steel_wheel (cards : List Card) (hlen : cards.length = 5)
    (hsub : ∀ r ∈ ranksOnly cards, r ∈ ([Ace, Two, Three, Four, Five] : List Rank))
    (hsup : ∀ r ∈ ([Ace, Two, Three, Four, Five] : List Rank), r ∈ ranksOnly cards)
    (hone : ∀ c ∈ cards, ∀ c' ∈ cards, c.suit = c'.suit) :
    evaluate5 cards = ⟨StraightFlush, [Five]⟩ := by
  obtain ⟨c0, hc0⟩ : ∃ c, c ∈ cards := by
    cases cards with
    | nil => simp at hlen
    | cons c cs => exact ⟨c, List.mem_cons_self _ _⟩
  have hall : ∀ c ∈ cards, c.suit = c0.suit := fun c hc => hone c hc c0 hc0
  have hcount0 : countSuit cards c0.suit = 5 := by
    have : countSuit cards c0.suit = cards.length :=
      List.countP_eq_length.mpr (fun c hc => by simp [hall c hc])
    rw [this, hlen]
  have hcountne : ∀ s, s ≠ c0.suit → countSuit cards s = 0 := by
    intro s hs
    unfold countSuit
    rw [List.countP_eq_zero]
    intro c hc
    simp only [decide_eq_true_eq]
    intro hcs
    exact hs (hcs ▸ (hall c hc).symm).symm
  have hcsort : ∀ s, countSuit (sortCards cards) s = countSuit cards s :=
    fun s => countSuit_congr _ _ (sortCards_perm cards) s
  have hDF : detectFlush (sortCards cards) = (true, c0.suit) := by
    unfold detectFlush
    rcases hsuit : c0.suit with _ | _ | _ | _
    · rw [if_pos (by rw [hcsort, ← hsuit, hcount0])]
    · rw [if_neg (by rw [hcsort, hcountne Hearts (by rw [hsuit]; simp)]; omega),
        if_pos (by rw [hcsort, ← hsuit, hcount0])]
    · rw [if_neg (by rw [hcsort, hcountne Hearts (by rw [hsuit]; simp)]; omega),
        if_neg (by rw [hcsort, hcountne Diamonds (by rw [hsuit]; simp)]; omega),
        if_pos (by rw [hcsort, ← hsuit, hcount0])]
    · rw [if_neg (by rw [hcsort, hcountne Hearts (by rw [hsuit]; simp)]; omega),
        if_neg (by rw [hcsort, hcountne Diamonds (by rw [hsuit]; simp)]; omega),
        if_neg (by rw [hcsort, hcountne Clubs (by rw [hsuit]; simp)]; omega),
        if_pos (by rw [hcsort, ← hsuit, hcount0])]
  have hfilter : filterBySuit (sortCards cards) c0.suit = sortCards cards := by
    unfold filterBySuit
    rw [List.filter_eq_self]
    intro c hc
    have : c ∈ cards := (sortCards_perm cards).mem_iff.mp hc
    simp [hall c this]
  have hDS := wheel_hasRank cards hsup
  unfold evaluate5
  simp only [hDF]
  simp only [hfilter]
  simp only [hDS]
  simp

/-- Witness for C10: the steel wheel in hearts. -/
theorem evaluate5_steel_wheel_witness :
    evaluate5 [HA, H2, H3, H4, H5] = ⟨StraightFlush, [Five]⟩ :=
  evaluate5_steel_wheel [HA, H2, H3, H4, H5] (by decide) (by decide) (by decide)
    (by decide)

/- ### C9: the caller's card slice is left unchanged

The Go `evaluate5` sorts the slice it receives IN PLACE.  To state the
frame property in a pure embedding, array mutation is made explicit as
state passing: `evaluate5Mut` returns the hand value together with the
final contents of the buffer it was handed (the sorted buffer), and
`EvaluateBestHandMut` threads the caller's array through every
combination evaluation, returning its final contents alongside the
result.  Go's `evalCombo` builds a FRESH 5-card buffer
(`hand := []Card{cards[i0], ...}`) and hands that to `evaluate5`, so the
caller's array is only read; had it passed an aliasing subslice instead,
the sort would have reordered the caller's array. -/

/-- `evaluate5` with its in-place rank-descending sort made explicit:
the second component is the final state of the argument buffer. -/
def evaluate5Mut (cards : List Card) : HandValue × List Card :=
  (evaluate5 cards, sortCards cards)

/-- `evalCombo` from `EvaluateBestHand`, acting on the caller's array
state `arr`: copy the five selected cards into a fresh buffer, evaluate
(and sort) that buffer, and return the value together with the new state
of `arr` — which is `arr` itself, because only the fresh buffer was
written. -/
def evalComboMut (arr : List Card) (idxs : List Nat) : HandValue × List Card :=
  let hand := idxs.map (fun i => arr.getD i ⟨Hearts, Two, ""⟩)
  let res := evaluate5Mut hand
  (res.1, arr)

/-- One step of the best-so-far loop, threading the array state. -/
def bestStepMut (st : HandValue × List Card) (idxs : List Nat) :
    HandValue × List Card :=
  let r := evalComboMut st.2 idxs
  (if CompareHandValues r.1 st.1 > 0 then r.1 else st.1, r.2)

/-- `EvaluateBestHand` over the index combinations of `0..6` (as in the
Go `indexes` generator), threading the caller's array state. -/
def EvaluateBestHandMut (cards : List Card) : Option (HandValue × List Card) :=
  if cards.length = 7 then
    match combinations (List.range 7) 5 with
    | [] => none
    | first :: rest =>
      let r0 := evalComboMut cards first
      some (rest.foldl bestStepMut (r0.1, r0.2))
  else none

theorem combinations_map (f : Nat → Card) : ∀ (l : List Nat) (k : Nat),
    combinations (l.map f) k = (combinations l k).map (List.map f) := by
  intro l
  induction l with
  | nil => intro k; cases k <;> rfl
  | cons x xs ih =>
    intro k
    cases k with
    | zero => rfl
    | succ k =>
      simp only [List.map_cons, combinations, ih, List.map_append, List.map_map]
      congr 1

theorem range_map_getD (l : List Card) (d : Card) :
    (List.range l.length).map (fun i => l.getD i d) = l := by
  apply List.ext_getElem
  · simp
  · intro i h1 h2
    simp only [List.getElem_map, List.getElem_range]
    exact List.getD_eq_getElem l d h2

theorem foldl_bestStepMut : ∀ (idxss : List (List Nat)) (hv : HandValue)
    (arr : List Card),
    idxss.foldl bestStepMut (hv, arr) =
      (bestHandValue hv (idxss.map (fun idxs =>
        evaluate5 (idxs.map (fun i => arr.getD i ⟨Hearts, Two, ""⟩)))), arr) := by
  intro idxss
  induction idxss with
  | nil =>
    intro hv arr
    simp [bestHandValue]
  | cons idxs rest ih =>
    intro hv arr
    have hstep : bestStepMut (hv, arr) idxs =
        (if CompareHandValues
            (evaluate5 (idxs.map (fun i => arr.getD i ⟨Hearts, Two, ""⟩))) hv > 0 then
          evaluate5 (idxs.map (fun i => arr.getD i ⟨Hearts, Two, ""⟩))
        else hv, arr) := rfl
    simp only [List.foldl_cons, List.map_cons, hstep, ih]
    rfl

/-- C9: `EvaluateBestHand` leaves the caller's card list unchanged: the
final array state equals the input, every in-place sort having been
applied to a fresh copy of each 5-card subset — and the value computed
this way is exactly `EvaluateBestHand`'s. -/
theorem evaluate_best_hand_frame (cards : List Card) (h7 : cards.length = 7) :
    (∀ sub : List Card, (evaluate5Mut sub).2 = sortCards sub) ∧
    ∃ hv, EvaluateBestHandMut cards = some (hv, cards) ∧
      EvaluateBestHand cards = some hv := by
  refine ⟨fun _ => rfl, ?_⟩
  match hc : combinations (List.range 7) 5 with
  | [] => exact absurd hc (by decide)
  | first :: rest =>
    have hcards : (List.range 7).map (fun i => cards.getD i ⟨Hearts, Two, ""⟩) =
        cards := by
      rw [← h7]
      exact range_map_getD cards _
    have hkey : combinations cards 5 =
        (first.map (fun i => cards.getD i ⟨Hearts, Two, ""⟩)) ::
          rest.map (List.map (fun i => cards.getD i ⟨Hearts, Two, ""⟩)) := by
      conv_lhs => rw [← hcards]
      rw [combinations_map, hc]
      rfl
    have hmut : EvaluateBestHandMut cards =
        some (bestHandValue
          (evaluate5 (first.map (fun i => cards.getD i ⟨Hearts, Two, ""⟩)))
          (rest.map (fun idxs =>
            evaluate5 (idxs.map (fun i => cards.getD i ⟨Hearts, Two, ""⟩)))), cards) := by
      unfold EvaluateBestHandMut
      rw [if_pos h7]
      simp only [hc, foldl_bestStepMut]
      rfl
    have hplain : EvaluateBestHand cards =
        some (bestHandValue
          (evaluate5 (first.map (fun i => cards.getD i ⟨Hearts, Two, ""⟩)))
          (rest.map (fun idxs =>
            evaluate5 (idxs.map (fun i => cards.getD i ⟨Hearts, Two, ""⟩))))) := by
      unfold EvaluateBestHand
      rw [if_pos h7]
      simp only [hkey, List.map_cons, List.map_map]
      rfl
    exact ⟨_, hmut, hplain⟩

/-- Witness for C9 at the straight-flush fixture. -/
theorem evaluate_best_hand_frame_witness :
    (∀ sub : List Card, (evaluate5Mut sub).2 = sortCards sub) ∧
    ∃ hv, EvaluateBestHandMut [HA, HK, HQ, HJ, HT, S2, S3] =
        some (hv, [HA, HK, HQ, HJ, HT, S2, S3]) ∧
      EvaluateBestHand [HA, HK, HQ, HJ, HT, S2, S3] = some hv :=
  evaluate_best_hand_frame [HA, HK, HQ, HJ, HT, S2, S3] (by decide)

end Poker
